import Mathlib

/-!
Verification of the Rudimentary_C repository: a manual string duplicator
(`my_strdup`) and four qsort-and-print demonstrations over integers and
characters, ascending and descending.

Memory for the string duplicator is modelled as a byte store `Nat → Nat`
(address to byte value).  The `while` scan loop is given explicit fuel;
`malloc` is an oracle `Option Nat` giving the fresh base address or `none`
on allocation failure.  The C library `qsort` is modelled by a comparator
driven sort satisfying the C standard contract (sorted per comparator,
a permutation of the input; stability unspecified — on the fixed inputs
here the sorted sequence is unique, so any conforming sort produces it).
-/

/-- Pointwise store update: `m` with address `a` set to byte `v`. -/
def writeByte (m : Nat → Nat) (a v : Nat) : Nat → Nat :=
  fun x => if x = a then v else m x

/-- The scan loop of `my_strdup`
(`int length = 0; while (s[length] != 0) length++;`), with explicit
fuel; `some len` is the distance to the first zero byte at or after `p`,
`none` means the loop did not find a terminator within `fuel` steps. -/
def scanLen (m : Nat → Nat) (p : Nat) : Nat → Option Nat
  | 0 => none
  | fuel + 1 =>
    if m p = 0 then some 0
    else (scanLen m (p + 1) fuel).map (fun k => k + 1)

/-- The copy loop of `my_strdup`
(`for (i = 0; i <= length; i++) copy[i] = s[i];`): starting at loop
index `i`, perform `count` sequential byte writes from `src + i` to
`dst + i`, each read seeing the store produced by the earlier writes. -/
def copyLoop (src dst : Nat) : Nat → Nat → (Nat → Nat) → (Nat → Nat)
  | _, 0, m => m
  | i, count + 1, m =>
    copyLoop src dst (i + 1) count (writeByte m (dst + i) (m (src + i)))

/-- `my_strdup` from StrdupFunction.c over the byte-store model.
`alloc` is the `malloc` oracle (`none` = allocation failure, `some q` =
fresh buffer at base address `q`); the input pointer is `Option Nat`
(`none` = NULL).  Returns `none` only when the scan fuel runs out (a
model artefact, never a C behaviour); otherwise `some (result, store)`
with `result` the returned pointer and `store` the final memory. -/
def my_strdup (fuel : Nat) (alloc : Option Nat) (m : Nat → Nat) :
    Option Nat → Option (Option Nat × (Nat → Nat))
  | none => some (none, m)
  | some p =>
    match scanLen m p fuel with
    | none => none
    | some length =>
      match alloc with
      | none => some (none, m)
      | some copy => some (some copy, copyLoop p copy 0 (length + 1) m)

/-- A null-terminated C string of length `len` lives at address `p`:
the byte at `p + len` is zero and no earlier byte is. -/
def isCStrAt (m : Nat → Nat) (p len : Nat) : Prop :=
  m (p + len) = 0 ∧ ∀ i, i < len → m (p + i) ≠ 0

theorem scanLen_of_isCStrAt (m : Nat → Nat) :
    ∀ len p fuel, isCStrAt m p len → len < fuel → scanLen m p fuel = some len := by
  intro len
  induction len with
  | zero =>
    intro p fuel h hf
    obtain ⟨fuel, rfl⟩ := Nat.exists_eq_add_of_lt hf
    have h0 : m p = 0 := by simpa using h.1
    simp [scanLen, h0]
  | succ n ih =>
    intro p fuel h hf
    obtain ⟨fuel, rfl⟩ := Nat.exists_eq_add_of_lt hf
    have hp : m p ≠ 0 := by
      have := h.2 0 (Nat.succ_pos n)
      simpa using this
    have htail : isCStrAt m (p + 1) n := by
      constructor
      · have h1 := h.1
        have e : p + 1 + n = p + (n + 1) := by omega
        rw [e]; exact h1
      · intro i hi
        have h2 := h.2 (i + 1) (by omega)
        have e : p + 1 + i = p + (i + 1) := by omega
        rw [e]; exact h2
    have hrec := ih (p + 1) (n + 1 + fuel) htail (by omega)
    simp [scanLen, hp, hrec]

/-- Addresses outside the written window `dst + i, …, dst + i + count - 1`
are untouched by the copy loop. -/
theorem copyLoop_frame (src dst : Nat) :
    ∀ count i m a, (∀ k, k < count → a ≠ dst + (i + k)) →
      copyLoop src dst i count m a = m a := by
  intro count
  induction count with
  | zero => intro i m a _; rfl
  | succ n ih =>
    intro i m a ha
    show copyLoop src dst (i + 1) n (writeByte m (dst + i) (m (src + i))) a = m a
    have h1 : ∀ k, k < n → a ≠ dst + (i + 1 + k) := by
      intro k hk
      have := ha (k + 1) (by omega)
      have e : i + (k + 1) = i + 1 + k := by omega
      rw [e] at this; exact this
    rw [ih (i + 1) _ a h1]
    have h0 : a ≠ dst + i := by
      have := ha 0 (by omega)
      simpa using this
    simp [writeByte, h0]

/-- When the source window `src + i, …, src + i + count - 1` is disjoint
from the destination window, the copy loop writes the original source
bytes into the destination. -/
theorem copyLoop_copy (src dst : Nat) :
    ∀ count i m,
      (∀ j k, j < count → k < count → src + (i + j) ≠ dst + (i + k)) →
      ∀ j, j < count → copyLoop src dst i count m (dst + (i + j)) = m (src + (i + j)) := by
  intro count
  induction count with
  | zero => intro i m _ j hj; omega
  | succ n ih =>
    intro i m hdisj j hj
    show copyLoop src dst (i + 1) n (writeByte m (dst + i) (m (src + i))) (dst + (i + j))
        = m (src + (i + j))
    match j, hj with
    | 0, _ =>
      have hframe : ∀ k, k < n → dst + (i + 0) ≠ dst + (i + 1 + k) := by
        intro k _; omega
      rw [copyLoop_frame src dst n (i + 1) _ _ hframe]
      simp [writeByte]
    | j' + 1, hj =>
      have hdisj1 : ∀ a b, a < n → b < n → src + (i + 1 + a) ≠ dst + (i + 1 + b) := by
        intro a b haa hbb
        have := hdisj (a + 1) (b + 1) (by omega) (by omega)
        have e1 : i + (a + 1) = i + 1 + a := by omega
        have e2 : i + (b + 1) = i + 1 + b := by omega
        rw [e1, e2] at this; exact this
      have e : i + (j' + 1) = i + 1 + j' := by omega
      rw [e]
      rw [ih (i + 1) _ hdisj1 j' (by omega)]
      have hne : src + (i + 1 + j') ≠ dst + i := by
        have := hdisj (j' + 1) 0 (by omega) (by omega)
        have e1 : i + (j' + 1) = i + 1 + j' := by omega
        have e2 : i + 0 = i := by omega
        rw [e1, e2] at this; exact this
      simp [writeByte, hne]

/-- A concrete store holding the two-byte string "hi" at address 0,
zero everywhere else. -/
def exMem : Nat → Nat :=
  fun a => if a = 0 then 104 else if a = 1 then 105 else 0

/-- Claim C1: for a non-null input string at `p` of length `len`, when
allocation yields a buffer at `q` disjoint from the source (as `malloc`
guarantees), `my_strdup` returns the non-null pointer `q`, the copy has
the same length and the same bytes as the source including the
terminator at position `len`, and the only bytes written lie inside the
fresh buffer — the copy resides in storage distinct from the source. -/
theorem my_strdup_copies (m : Nat → Nat) (p q len fuel : Nat)
    (hs : isCStrAt m p len) (hfuel : len < fuel)
    (hdisj : ∀ j k, j ≤ len → k ≤ len → p + j ≠ q + k) :
    ∃ m2, my_strdup fuel (some q) m (some p) = some (some q, m2) ∧
      (∀ i, i ≤ len → m2 (q + i) = m (p + i)) ∧
      isCStrAt m2 q len ∧
      (∀ a, (∀ k, k ≤ len → a ≠ q + k) → m2 a = m a) := by
  have hscan := scanLen_of_isCStrAt m len p fuel hs hfuel
  have hdisj0 : ∀ j k, j < len + 1 → k < len + 1 → p + (0 + j) ≠ q + (0 + k) := by
    intro j k hj hk
    have := hdisj j k (by omega) (by omega)
    simpa using this
  have hcontent : ∀ i, i ≤ len → copyLoop p q 0 (len + 1) m (q + i) = m (p + i) := by
    intro i hi
    have := copyLoop_copy p q (len + 1) 0 m hdisj0 i (by omega)
    simpa using this
  have hframe : ∀ a, (∀ k, k ≤ len → a ≠ q + k) →
      copyLoop p q 0 (len + 1) m a = m a := by
    intro a ha
    apply copyLoop_frame
    intro k hk
    have := ha k (by omega)
    simpa using this
  refine ⟨copyLoop p q 0 (len + 1) m, ?_, hcontent, ?_, hframe⟩
  · simp [my_strdup, hscan]
  · exact ⟨by rw [hcontent len (le_refl len)]; exact hs.1,
      fun i hi => by rw [hcontent i (by omega)]; exact hs.2 i hi⟩

/-- Claim C1 witness: duplicating the concrete string "hi" (length 2,
at address 0) into a buffer at address 10. -/
theorem my_strdup_copies_witness :
    ∃ m2, my_strdup 5 (some 10) exMem (some 0) = some (some 10, m2) ∧
      (∀ i, i ≤ 2 → m2 (10 + i) = exMem (0 + i)) ∧
      isCStrAt m2 10 2 ∧
      (∀ a, (∀ k, k ≤ 2 → a ≠ 10 + k) → m2 a = exMem a) :=
  my_strdup_copies exMem 0 10 2 5 ⟨rfl, by decide⟩ (by omega)
    (by intro j k hj hk; omega)

/-- Claim C2: `my_strdup` on the NULL input returns NULL immediately,
with the store untouched — no scan, allocation or copy is performed;
the result holds for every fuel and every allocator response. -/
theorem my_strdup_null (fuel : Nat) (alloc : Option Nat) (m : Nat → Nat) :
    my_strdup fuel alloc m none = some (none, m) := rfl

/-- Claim C3: when allocation fails on a non-null input, `my_strdup`
returns NULL with the store untouched, and this observable outcome is
identical to the one for the NULL input — the caller cannot tell the
two apart from the return value. -/
theorem my_strdup_alloc_fail (m : Nat → Nat) (p len fuel : Nat)
    (hs : isCStrAt m p len) (hfuel : len < fuel) :
    my_strdup fuel none m (some p) = some (none, m) ∧
    my_strdup fuel none m (some p) = my_strdup fuel none m none := by
  have hscan := scanLen_of_isCStrAt m len p fuel hs hfuel
  constructor
  · simp [my_strdup, hscan]
  · simp [my_strdup, hscan]

/-- Claim C3 witness: allocation failure while duplicating "hi". -/
theorem my_strdup_alloc_fail_witness :
    my_strdup 5 none exMem (some 0) = some (none, exMem) ∧
    my_strdup 5 none exMem (some 0) = my_strdup 5 none exMem none :=
  my_strdup_alloc_fail exMem 0 2 5 ⟨rfl, by decide⟩ (by omega)

/-- Claim C10: `my_strdup` never writes to its source string: with a
fresh (disjoint) buffer at `q`, every byte of the source up to and
including the terminator keeps its value, and every address outside the
fresh buffer keeps its value — all writes land in the new buffer. -/
theorem my_strdup_source_unchanged (m : Nat → Nat) (p q len fuel : Nat)
    (hs : isCStrAt m p len) (hfuel : len < fuel)
    (hdisj : ∀ j k, j ≤ len → k ≤ len → p + j ≠ q + k) :
    ∃ m2, my_strdup fuel (some q) m (some p) = some (some q, m2) ∧
      (∀ i, i ≤ len → m2 (p + i) = m (p + i)) ∧
      (∀ a, (∀ k, k ≤ len → a ≠ q + k) → m2 a = m a) := by
  have hscan := scanLen_of_isCStrAt m len p fuel hs hfuel
  have hframe : ∀ a, (∀ k, k ≤ len → a ≠ q + k) →
      copyLoop p q 0 (len + 1) m a = m a := by
    intro a ha
    apply copyLoop_frame
    intro k hk
    have := ha k (by omega)
    simpa using this
  refine ⟨copyLoop p q 0 (len + 1) m, ?_, ?_, hframe⟩
  · simp [my_strdup, hscan]
  · intro i hi
    exact hframe (p + i) (fun k hk => hdisj i k hi hk)

/-- Claim C10 witness: duplicating "hi" leaves the source bytes at
addresses 0, 1, 2 unchanged. -/
theorem my_strdup_source_unchanged_witness :
    ∃ m2, my_strdup 5 (some 10) exMem (some 0) = some (some 10, m2) ∧
      (∀ i, i ≤ 2 → m2 (0 + i) = exMem (0 + i)) ∧
      (∀ a, (∀ k, k ≤ 2 → a ≠ 10 + k) → m2 a = exMem a) :=
  my_strdup_source_unchanged exMem 0 10 2 5 ⟨rfl, by decide⟩ (by omega)
    (by intro j k hj hk; omega)

/-- 32-bit wrap-around: the value a signed `int` holds after an
overflowing subtraction under two's complement (2147483648 = 2^31,
4294967296 = 2^32). -/
def intWrap (z : Int) : Int := (z + 2147483648) % 4294967296 - 2147483648

/-- cmp_int from a) integers/AscendingOrder.c: returns `a - b` as a C
int, so the mathematical difference wraps when it is not
representable. -/
def cmp_int (a b : Int) : Int := intWrap (a - b)

/-- cmp_int_desc from a) integers/DescendingOrder.c: returns `b - a`. -/
def cmp_int_desc (a b : Int) : Int := intWrap (b - a)

/-- cmp_char_asc from b) charcters/AscendingOrder.c: both chars are
promoted to int before the subtraction, so the result is exact. -/
def cmp_char_asc (a b : Nat) : Int := (a : Int) - (b : Int)

/-- cmp_char_desc from b) charcters/DescendingOrder.c. -/
def cmp_char_desc (a b : Nat) : Int := (b : Int) - (a : Int)

/-- Insert `x` into a list, before the first element `y` with
`cmp x y ≤ 0`. -/
def insertCmp {α : Type} (cmp : α → α → Int) (x : α) : List α → List α
  | [] => [x]
  | y :: ys => if cmp x y ≤ 0 then x :: y :: ys else y :: insertCmp cmp x ys

/-- Model of the C library `qsort` (not part of this repository): a
comparator-driven sort meeting the C standard contract — the result is
a permutation of the input ordered per the comparator.  Stability is
unspecified by the standard; on the fixed inputs of the demonstrations
equal-comparing elements are equal values, so the sorted sequence is
unique and every conforming qsort yields the sequence this model
yields. -/
def qsortModel {α : Type} (cmp : α → α → Int) (l : List α) : List α :=
  l.foldr (insertCmp cmp) []

/-- The bytes printf("%d ", x) writes for one int: decimal text of the
value followed by a space. -/
def renderInt (z : Int) : List Nat :=
  ((toString z).toList.map Char.toNat) ++ [32]

/-- The full line an integer demonstration writes: each element as
decimal text plus a space, then the newline. -/
def renderIntLine (l : List Int) : List Nat :=
  (l.map renderInt).flatten ++ [10]

/-- The full line a character demonstration writes: each element as its
literal byte plus a space, then the newline. -/
def renderCharLine (l : List Nat) : List Nat :=
  (l.map (fun c => [c, 32])).flatten ++ [10]

/-- The fixed input array {5, 2, 9, 1, 5, 6} of both integer
demonstrations. -/
def intArr : List Int := [5, 2, 9, 1, 5, 6]

/-- The fixed input of b) charcters/AscendingOrder.c: the array
initialized from the literal "salam"; sizeof counts 6 elements, so the
terminating 0 byte is part of the array. -/
def charArrSalam : List Nat := [115, 97, 108, 97, 109, 0]

/-- The fixed input {'z','a','q','m','b'} of
b) charcters/DescendingOrder.c (no terminator: a brace-initialized
5-element char array). -/
def charArrZaqmb : List Nat := [122, 97, 113, 109, 98]

/-- main of a) integers/AscendingOrder.c: the bytes written to standard
output, and the exit status. -/
def mainIntAsc : List Nat × Int :=
  (renderIntLine (qsortModel cmp_int intArr), 0)

/-- main of a) integers/DescendingOrder.c. -/
def mainIntDesc : List Nat × Int :=
  (renderIntLine (qsortModel cmp_int_desc intArr), 0)

/-- main of b) charcters/AscendingOrder.c. -/
def mainCharAsc : List Nat × Int :=
  (renderCharLine (qsortModel cmp_char_asc charArrSalam), 0)

/-- main of b) charcters/DescendingOrder.c. -/
def mainCharDesc : List Nat × Int :=
  (renderCharLine (qsortModel cmp_char_desc charArrZaqmb), 0)

/-- Adjacent-pairs check: every adjacent pair compares less-or-equal
under the comparator. -/
def sortedByCmp {α : Type} (cmp : α → α → Int) : List α → Bool
  | [] => true
  | [_] => true
  | x :: y :: rest => (decide (cmp x y ≤ 0)) && sortedByCmp cmp (y :: rest)

/-- Claim C4: in each of the four demonstrations, the sequence rendered
after sorting satisfies, for every adjacent pair, that the
demonstration's comparator applied to the pair yields less-or-equal
(a non-positive comparator result). -/
theorem demos_sorted :
    sortedByCmp cmp_int (qsortModel cmp_int intArr) = true ∧
    sortedByCmp cmp_int_desc (qsortModel cmp_int_desc intArr) = true ∧
    sortedByCmp cmp_char_asc (qsortModel cmp_char_asc charArrSalam) = true ∧
    sortedByCmp cmp_char_desc (qsortModel cmp_char_desc charArrZaqmb) = true := by
  decide

/-- Claim C5: in each of the four demonstrations the rendered sequence
is a permutation of the fixed input array — the multiset of rendered
values equals the multiset of input values. -/
theorem demos_permutation :
    (qsortModel cmp_int intArr).Perm intArr ∧
    (qsortModel cmp_int_desc intArr).Perm intArr ∧
    (qsortModel cmp_char_asc charArrSalam).Perm charArrSalam ∧
    (qsortModel cmp_char_desc charArrZaqmb).Perm charArrZaqmb := by
  decide

/-- Claim C6: the integer ascending demonstration writes exactly the
bytes of "1 2 5 5 6 9 \n" (trailing space before the newline) and
exits with status 0. -/
theorem mainIntAsc_output :
    mainIntAsc = (("1 2 5 5 6 9 \n").toList.map Char.toNat, 0) := by
  decide

/-- Claim C7: the character ascending demonstration sorts all 6
elements of the array initialized from "salam", terminator included
(sizeof counts it), and writes exactly the bytes
0 ' ' a ' ' a ' ' l ' ' m ' ' s ' ' newline — the NUL byte rendered in
the first position — exiting with status 0. -/
theorem mainCharAsc_output :
    mainCharAsc = ([0, 32, 97, 32, 97, 32, 108, 32, 109, 32, 115, 32, 10], 0) := by
  decide

/-- Claim C8: for each of the four demonstrations, sorting is
idempotent — re-sorting the already-sorted sequence yields the same
sequence, and hence the same rendered text, as sorting once. -/
theorem demos_idempotent :
    qsortModel cmp_int (qsortModel cmp_int intArr) = qsortModel cmp_int intArr ∧
    renderIntLine (qsortModel cmp_int (qsortModel cmp_int intArr)) =
      renderIntLine (qsortModel cmp_int intArr) ∧
    qsortModel cmp_int_desc (qsortModel cmp_int_desc intArr) =
      qsortModel cmp_int_desc intArr ∧
    renderIntLine (qsortModel cmp_int_desc (qsortModel cmp_int_desc intArr)) =
      renderIntLine (qsortModel cmp_int_desc intArr) ∧
    qsortModel cmp_char_asc (qsortModel cmp_char_asc charArrSalam) =
      qsortModel cmp_char_asc charArrSalam ∧
    renderCharLine (qsortModel cmp_char_asc (qsortModel cmp_char_asc charArrSalam)) =
      renderCharLine (qsortModel cmp_char_asc charArrSalam) ∧
    qsortModel cmp_char_desc (qsortModel cmp_char_desc charArrZaqmb) =
      qsortModel cmp_char_desc charArrZaqmb ∧
    renderCharLine (qsortModel cmp_char_desc (qsortModel cmp_char_desc charArrZaqmb)) =
      renderCharLine (qsortModel cmp_char_desc charArrZaqmb) := by
  decide

/-- The mathematical integer `z` is representable in a 32-bit signed
int. -/
def intRepresentable (z : Int) : Prop :=
  -2147483648 ≤ z ∧ z < 2147483648

/-- `x` and `y` agree in sign: negative, zero and positive together. -/
def sameSign (x y : Int) : Prop :=
  (x < 0 ↔ y < 0) ∧ (x = 0 ↔ y = 0) ∧ (0 < x ↔ 0 < y)

/-- Claim C9: for int-range inputs, the subtraction-based comparators
agree in sign with the natural (resp. reversed) order exactly when the
mathematical difference they compute is representable in a signed int;
and every pair drawn from the fixed array {5, 2, 9, 1, 5, 6} satisfies
that no-overflow precondition, in both directions. -/
theorem cmp_sign_exact (a b : Int)
    (ha : intRepresentable a) (hb : intRepresentable b) :
    (sameSign (cmp_int a b) (a - b) ↔ intRepresentable (a - b)) ∧
    (sameSign (cmp_int_desc a b) (b - a) ↔ intRepresentable (b - a)) ∧
    (a ∈ intArr → b ∈ intArr → intRepresentable (a - b) ∧ intRepresentable (b - a)) := by
  obtain ⟨ha1, ha2⟩ := ha
  obtain ⟨hb1, hb2⟩ := hb
  refine ⟨?_, ?_, ?_⟩
  · simp only [sameSign, cmp_int, intWrap, intRepresentable]
    omega
  · simp only [sameSign, cmp_int_desc, intWrap, intRepresentable]
    omega
  · intro hma hmb
    simp only [intArr, List.mem_cons, List.not_mem_nil, or_false] at hma hmb
    simp only [intRepresentable]
    omega

/-- Claim C9 witness: the pair (5, 2) from the fixed array. -/
theorem cmp_sign_exact_witness :
    (sameSign (cmp_int 5 2) (5 - 2) ↔ intRepresentable (5 - 2)) ∧
    (sameSign (cmp_int_desc 5 2) (2 - 5) ↔ intRepresentable (2 - 5)) ∧
    ((5 : Int) ∈ intArr → (2 : Int) ∈ intArr →
      intRepresentable (5 - 2) ∧ intRepresentable (2 - 5)) :=
  cmp_sign_exact 5 2 ⟨by decide, by decide⟩ ⟨by decide, by decide⟩
